import Mathlib

/-!
Verification of the MrRSS feed-fetch orchestrator and blog-discovery core.

The discovery handler layer (`internal/handlers/discovery_handlers.go`) is
embedded directly from the Go source.  The fetcher, sanitizer, progress
tracker and article upsert live in packages whose implementation files are
not part of the snapshot; those are modelled from the specification text and
each such definition is marked accordingly in its doc comment.
-/

namespace MrRSS

/-- A discovered candidate blog, as produced by the discovery service
(`discovery.DiscoveredBlog`): candidate name, homepage URL, resolved feed
URL (`RSSFeed`) and a confidence score.  The Go score is a float in [0,1];
only its ordering matters here, so it is modelled as a rational. -/
structure DiscoveredBlog where
  Name : String
  URL : String
  RSSFeed : String
  Score : Rat
deriving DecidableEq, Repr

/-- A Go slice value: `nil` and the empty non-nil slice are distinct.
`filterSubscribedFeeds` always allocates with `make(..., 0)`, so its result
is never the nil slice. -/
inductive GoSlice (α : Type) where
  | nilSlice : GoSlice α
  | mkSlice : List α → GoSlice α
deriving DecidableEq, Repr

/-- The underlying element list of a Go slice. -/
def GoSlice.toList {α : Type} : GoSlice α → List α
  | .nilSlice => []
  | .mkSlice l => l

/-- Whether a Go slice is the nil slice. -/
def GoSlice.isNil {α : Type} : GoSlice α → Bool
  | .nilSlice => true
  | .mkSlice _ => false

/-- Go `append(s, a)`: appending to a nil slice yields a non-nil slice. -/
def GoSlice.push {α : Type} : GoSlice α → α → GoSlice α
  | .nilSlice, a => .mkSlice [a]
  | .mkSlice l, a => .mkSlice (l ++ [a])

/-- `filterSubscribedFeeds` (internal/handlers/discovery_handlers.go):
starts from `make([]discovery.DiscoveredBlog, 0)` and appends every
candidate whose `RSSFeed` is not in the subscribed-URL set.  The Go
`map[string]bool` lookup (absent keys read as `false`) is modelled by the
membership function `subscribedURLs : String → Bool`. -/
def filterSubscribedFeeds (discovered : List DiscoveredBlog)
    (subscribedURLs : String → Bool) : GoSlice DiscoveredBlog :=
  discovered.foldl
    (fun filtered blog =>
      if subscribedURLs blog.RSSFeed then filtered else filtered.push blog)
    (GoSlice.mkSlice [])

/-- A subscribed feed row (`models.Feed`), with the fields the discovery
handlers read: identity, title, feed URL, homepage link and the
discovery-completed flag. -/
structure Feed where
  ID : Int
  Title : String
  URL : String
  Link : String
  DiscoveryCompleted : Bool
deriving DecidableEq, Repr

/-- Insert-or-overwrite on an association list, modelling assignment into
the Go map `allDiscovered[feed.Title] = filtered`. -/
def mapInsert (m : List (String × List DiscoveredBlog)) (k : String)
    (v : List DiscoveredBlog) : List (String × List DiscoveredBlog) :=
  if m.any fun p => p.1 == k then
    m.map fun p => if p.1 == k then (k, v) else p
  else
    m ++ [(k, v)]

/-- Observable outcome of one `discoverFromMultipleFeeds` run: the
aggregated per-title map, the IDs passed to `MarkFeedDiscovered`, and the
feeds whose loop body actually ran (was iterated over past the `ctx`
check). -/
structure BatchState where
  allDiscovered : List (String × List DiscoveredBlog)
  marked : List Int
  processed : List Feed
deriving DecidableEq, Repr

/-- The loop of `discoverFromMultipleFeeds`
(internal/handlers/discovery_handlers.go, lines 219-260).  `ctxDone i`
tells whether the `select` on `ctx.Done()` fires at the check preceding
iteration `i`; `discoverResult f` is the `(discovered, err)` outcome of
`h.DiscoveryService.DiscoverFromFeed` for feed `f`.  On `ctx.Done()` the Go
code returns `allDiscovered` as accumulated; on a per-feed error it logs,
emits a progress message and `continue`s — skipping both the filter/store
step and the `MarkFeedDiscovered` call. -/
def discoverLoop (ctxDone : Nat → Bool)
    (discoverResult : Feed → Except String (List DiscoveredBlog))
    (subscribedURLs : String → Bool) :
    List Feed → Nat → BatchState → BatchState
  | [], _, st => st
  | f :: rest, i, st =>
    if ctxDone i then st
    else
      let st1 : BatchState := { st with processed := st.processed ++ [f] }
      match discoverResult f with
      | .error _ => discoverLoop ctxDone discoverResult subscribedURLs rest (i + 1) st1
      | .ok discovered =>
        let filtered := (filterSubscribedFeeds discovered subscribedURLs).toList
        let st2 : BatchState :=
          if 0 < filtered.length then
            { st1 with allDiscovered := mapInsert st1.allDiscovered f.Title filtered }
          else st1
        let st3 : BatchState := { st2 with marked := st2.marked ++ [f.ID] }
        discoverLoop ctxDone discoverResult subscribedURLs rest (i + 1) st3

/-- `discoverFromMultipleFeeds` (internal/handlers/discovery_handlers.go):
runs the batch loop from the empty accumulator and iteration index 0. -/
def discoverFromMultipleFeeds (ctxDone : Nat → Bool)
    (discoverResult : Feed → Except String (List DiscoveredBlog))
    (subscribedURLs : String → Bool) (feeds : List Feed) : BatchState :=
  discoverLoop ctxDone discoverResult subscribedURLs feeds 0 ⟨[], [], []⟩

/-- A context that is never observed cancelled during the loop. -/
def ctxNever : Nat → Bool := fun _ => false

/-- A timeout context: the `ctx.Done()` check fires from iteration `k`
onward (a context, once expired, stays expired). -/
def ctxFrom (k : Nat) : Nat → Bool := fun i => decide (k ≤ i)

/-- Whether an `Except` result carries no error (Go `err == nil`). -/
def exceptOk {ε α : Type} : Except ε α → Bool
  | .ok _ => true
  | .error _ => false

/-- One lexical constituent of a raw feed document: either a run of
ordinary document text, or an `<atom:link>`/`<link>` element carrying an
href/url attribute value. -/
inductive FeedChunk where
  | text : String → FeedChunk
  | linkElem : String → FeedChunk
deriving DecidableEq, Repr

/-- Modelled from the spec: the URI scheme of an href value — its
characters before the first `:`, lowercased ("case-insensitive").  A
value with no colon yields its whole text as the (necessarily
non-matching) scheme candidate. -/
def feedScheme (href : String) : List Char :=
  (href.toList.takeWhile fun ch => ch != ':').map Char.toLower

/-- Modelled from the spec: whether an href carries one of the unsafe
schemes `file`, `javascript`, `data`, `ftp` (case-insensitive) that
`sanitizeFeedXML` must strip. -/
def hasUnsafeScheme (href : String) : Bool :=
  feedScheme href == "file".toList || feedScheme href == "javascript".toList ||
    feedScheme href == "data".toList || feedScheme href == "ftp".toList

/-- Whether the sanitizer keeps a chunk: ordinary text always survives, a
link element survives unless its href has an unsafe scheme. -/
def keepChunk : FeedChunk → Bool
  | .text _ => true
  | .linkElem href => !hasUnsafeScheme href

/-- Modelled from the spec: `sanitizeFeedXML` (package internal/feed —
only its test is in the snapshot).  Given raw feed text, viewed as its
sequence of chunks, it removes every `<atom:link>`/`<link>` element whose
href/url attribute has scheme file, javascript, data or ftp
(case-insensitive), leaving every other chunk byte-identical and in
place; empty input yields empty output. -/
def sanitizeFeedXML (doc : List FeedChunk) : List FeedChunk :=
  doc.filter keepChunk

/-- A stored article row (`models.Article`) with the fields the retriever
upsert touches: owning feed, dedup URL, refreshable content fields, and
the user-state flags that must survive a re-fetch. -/
structure Article where
  FeedID : Int
  ArticleURL : String
  Title : String
  Content : String
  PublishedAt : Int
  Read : Bool
  Favorite : Bool
  Hidden : Bool
deriving DecidableEq, Repr

/-- One normalized item parsed out of a fetched feed. -/
structure FeedItem where
  ItemURL : String
  Title : String
  Content : String
  PublishedAt : Int
deriving DecidableEq, Repr

/-- Whether a stored row matches the upsert key `(feedID, URL)`. -/
def keyMatch (fid : Int) (url : String) (a : Article) : Bool :=
  a.FeedID == fid && a.ArticleURL == url

/-- The refreshed version of an existing row: content, title and publish
time taken from the item, everything else (in particular read, favorite
and hidden) untouched. -/
def refreshArticle (it : FeedItem) (a : Article) : Article :=
  { a with Title := it.Title, Content := it.Content, PublishedAt := it.PublishedAt }

/-- The row inserted for an item whose key is new: unread, not favorite,
not hidden. -/
def freshArticle (fid : Int) (it : FeedItem) : Article :=
  { FeedID := fid, ArticleURL := it.ItemURL, Title := it.Title,
    Content := it.Content, PublishedAt := it.PublishedAt,
    Read := false, Favorite := false, Hidden := false }

/-- Modelled from the spec: the retriever's article upsert (the Store's
`UpsertArticles` path; its implementation is not in the snapshot).  If a
row with key `(feedID, item.URL)` exists, every such row is refreshed in
place — content, title and publish time replaced, read/favorite/hidden
kept; otherwise a fresh unread row is appended. -/
def upsertArticle (fid : Int) (it : FeedItem) (table : List Article) :
    List Article :=
  if table.any (keyMatch fid it.ItemURL) then
    table.map fun a => if keyMatch fid it.ItemURL a then refreshArticle it a else a
  else
    table ++ [freshArticle fid it]

/-- The sweep progress snapshot (`FetchProgress`): total feed count,
completed count, running flag, currently processed feed title and the
accumulated per-feed error messages. -/
structure FetchProgress where
  total : Nat
  completed : Nat
  running : Bool
  currentFeed : String
  errors : List String
deriving DecidableEq, Repr

/-- Modelled from the spec: the tracker state at sweep start —
`{total: N, completed: 0, running: true}` with no errors yet. -/
def initProgress (total : Nat) : FetchProgress :=
  { total := total, completed := 0, running := true, currentFeed := "", errors := [] }

/-- An observable event inside one sweep: a worker finishing one feed
(successfully or with an error message), or the sweep being aborted by
cancellation. -/
inductive SweepEvent where
  | workerDone : Bool → String → SweepEvent
  | cancel : SweepEvent
deriving DecidableEq, Repr

/-- Modelled from the spec: one ProgressTracker transition.  A worker
completion increments `completed` by exactly one (success or failure
alike), records the error message on failure, and flips `running` to
false once `completed` reaches `total`; cancellation flips `running` to
false immediately.  `running` is never set back to true mid-sweep. -/
def stepProgress (p : FetchProgress) : SweepEvent → FetchProgress
  | .workerDone ok err =>
    let c := p.completed + 1
    { p with completed := c,
             errors := if ok then p.errors else p.errors ++ [err],
             running := if p.total ≤ c then false else p.running }
  | .cancel => { p with running := false }

/-- The tracker state after a sweep over `total` feeds has observed the
given event trace. -/
def runSweep (total : Nat) (trace : List SweepEvent) : FetchProgress :=
  trace.foldl stepProgress (initProgress total)

/-- Number of worker completions in a trace. -/
def countDone (trace : List SweepEvent) : Nat :=
  trace.countP fun e => match e with | .workerDone _ _ => true | .cancel => false

/-- Orchestrator state: the shared progress record; `running` doubles as
the guard flag that serializes `FetchAll` calls. -/
structure OrchState where
  progress : FetchProgress
deriving DecidableEq, Repr

/-- What a `FetchAll` call did: nothing (a sweep was already running) or
started a new sweep. -/
inductive FetchAllResult where
  | noop : FetchAllResult
  | started : FetchAllResult
deriving DecidableEq, Repr

/-- Modelled from the spec: the entry of `FetchAll(ctx)`.  If a sweep is
already running it returns immediately — no state change, no queuing, no
error, a no-op.  Otherwise it reads the feed list and resets the tracker
to `{total: N, completed: 0, running: true}`, beginning a sweep.
Concurrent callers are serialized by the guard flag, so two overlapping
calls are modelled as the two serialized entry steps. -/
def fetchAllStart (feeds : List Feed) (s : OrchState) :
    OrchState × FetchAllResult :=
  if s.progress.running then (s, .noop)
  else ({ progress := initProgress feeds.length }, .started)

/-- Modelled from the spec: the orchestrator's top-level wait loop.  At
poll step `i` it observes whether `ctx` is cancelled (`cancelled i`) and
the completed count so far (`completed i`), and exits at the first step
where the sweep finished or cancellation is observed, returning that
step's index; `fuel` bounds the polls considered. -/
def waitLoop (total : Nat) (completed : Nat → Nat) (cancelled : Nat → Bool) :
    Nat → Nat → Option Nat
  | 0, _ => none
  | fuel + 1, i =>
    if cancelled i || decide (total ≤ completed i) then some i
    else waitLoop total completed cancelled fuel (i + 1)

/-- The poll index at which `FetchAll`'s wait loop returns, starting from
step 0. -/
def fetchAllWaitReturn (total : Nat) (completed : Nat → Nat)
    (cancelled : Nat → Bool) (fuel : Nat) : Option Nat :=
  waitLoop total completed cancelled fuel 0

/-- A concrete feed used to exercise the batch-discovery loop. -/
def feedA : Feed :=
  { ID := 1, Title := "A", URL := "http://a.example/feed.xml",
    Link := "http://a.example", DiscoveryCompleted := false }

/-- The filtering loop is `List.filter` on the candidate list. -/
theorem filterSubscribedFeeds_eq (discovered : List DiscoveredBlog)
    (subscribedURLs : String → Bool) :
    filterSubscribedFeeds discovered subscribedURLs =
      GoSlice.mkSlice (discovered.filter fun b => !subscribedURLs b.RSSFeed) := by
  have aux : ∀ (d : List DiscoveredBlog) (l : List DiscoveredBlog),
      d.foldl
        (fun filtered blog =>
          if subscribedURLs blog.RSSFeed then filtered else filtered.push blog)
        (GoSlice.mkSlice l) =
      GoSlice.mkSlice (l ++ d.filter fun b => !subscribedURLs b.RSSFeed) := by
    intro d
    induction d with
    | nil => intro l; simp [List.foldl]
    | cons b rest ih =>
      intro l
      by_cases hb : subscribedURLs b.RSSFeed
      · simp [List.foldl, hb, ih]
      · simpa [List.foldl, hb, GoSlice.push] using ih (l ++ [b])
  simpa using aux discovered []

/-- C1: the filtered output of `filterSubscribedFeeds` contains exactly
those input candidates whose resolved feed URL (`RSSFeed`) is not in the
subscribed-URL set; in particular no candidate whose feed URL is in the
set ever appears in the returned result. -/
theorem filterSubscribedFeeds_exactly (discovered : List DiscoveredBlog)
    (subscribedURLs : String → Bool) (b : DiscoveredBlog) :
    b ∈ (filterSubscribedFeeds discovered subscribedURLs).toList ↔
      b ∈ discovered ∧ subscribedURLs b.RSSFeed = false := by
  rw [filterSubscribedFeeds_eq]
  simp [GoSlice.toList, List.mem_filter]

/-- C10: `filterSubscribedFeeds` is a stable filter.  For every input
list its output is a subsequence of the input and the returned slice is
never the nil slice, even when empty; consequently an input sorted by
descending score yields an output still sorted by descending score. -/
theorem filterSubscribedFeeds_stable (discovered : List DiscoveredBlog)
    (subscribedURLs : String → Bool) :
    (filterSubscribedFeeds discovered subscribedURLs).isNil = false ∧
    List.Sublist (filterSubscribedFeeds discovered subscribedURLs).toList discovered ∧
    ((discovered.Pairwise fun a b => b.Score ≤ a.Score) →
      (filterSubscribedFeeds discovered subscribedURLs).toList.Pairwise
        (fun a b => b.Score ≤ a.Score)) := by
  rw [filterSubscribedFeeds_eq]
  exact ⟨rfl, List.filter_sublist _,
    fun h => List.Pairwise.sublist (List.filter_sublist _) h⟩

/-- Witness for C10 at a concrete two-candidate list sorted by
descending score, one candidate already subscribed. -/
theorem filterSubscribedFeeds_stable_witness :
    (filterSubscribedFeeds
        [⟨"a", "http://a", "http://a/feed", 1⟩, ⟨"b", "http://b", "http://b/feed", 0⟩]
        (fun u => u == "http://a/feed")).isNil = false ∧
    (filterSubscribedFeeds
        [⟨"a", "http://a", "http://a/feed", 1⟩, ⟨"b", "http://b", "http://b/feed", 0⟩]
        (fun u => u == "http://a/feed")).toList.Pairwise
      (fun a b => b.Score ≤ a.Score) :=
  ⟨(filterSubscribedFeeds_stable
      [⟨"a", "http://a", "http://a/feed", 1⟩, ⟨"b", "http://b", "http://b/feed", 0⟩]
      (fun u => u == "http://a/feed")).1,
   (filterSubscribedFeeds_stable
      [⟨"a", "http://a", "http://a/feed", 1⟩, ⟨"b", "http://b", "http://b/feed", 0⟩]
      (fun u => u == "http://a/feed")).2.2 (by decide)⟩

/-- Under a never-expiring context the loop body runs for every feed, in
order. -/
theorem discoverLoop_processed_never
    (discoverResult : Feed → Except String (List DiscoveredBlog))
    (subscribedURLs : String → Bool) :
    ∀ (feeds : List Feed) (i : Nat) (st : BatchState),
      (discoverLoop ctxNever discoverResult subscribedURLs feeds i st).processed =
        st.processed ++ feeds := by
  intro feeds
  induction feeds with
  | nil => intro i st; simp [discoverLoop]
  | cons f rest ih =>
    intro i st
    show (discoverLoop ctxNever discoverResult subscribedURLs (f :: rest) i st).processed = _
    rw [discoverLoop]
    simp only [ctxNever, if_false]
    cases hres : discoverResult f with
    | error e => simp [hres, ih]
    | ok discovered =>
      simp only [hres]
      by_cases hlen :
          0 < (filterSubscribedFeeds discovered subscribedURLs).toList.length
      · simp [hlen, ih]
      · simp [hlen, ih]

/-- A loop started at index `i` under the timeout context `ctxFrom k`
behaves like the never-expiring loop over the first `k - i` feeds. -/
theorem discoverLoop_ctxFrom (k : Nat)
    (discoverResult : Feed → Except String (List DiscoveredBlog))
    (subscribedURLs : String → Bool) :
    ∀ (feeds : List Feed) (i : Nat) (st : BatchState),
      discoverLoop (ctxFrom k) discoverResult subscribedURLs feeds i st =
        discoverLoop ctxNever discoverResult subscribedURLs (feeds.take (k - i)) i st := by
  intro feeds
  induction feeds with
  | nil => intro i st; simp [discoverLoop]
  | cons f rest ih =>
    intro i st
    by_cases hik : k ≤ i
    · have hz : k - i = 0 := Nat.sub_eq_zero_of_le hik
      rw [hz]
      simp [discoverLoop, ctxFrom, hik]
    · have hlt : i < k := Nat.lt_of_not_le hik
      have hs : k - i = (k - (i + 1)) + 1 := by omega
      rw [hs, List.take_succ_cons]
      rw [discoverLoop, discoverLoop]
      have hc : ctxFrom k i = false := by
        simp [ctxFrom]; omega
      simp only [hc, ctxNever, if_false]
      cases hres : discoverResult f with
      | error e => simp [hres, ih]
      | ok discovered =>
        simp only [hres]
        by_cases hlen :
            0 < (filterSubscribedFeeds discovered subscribedURLs).toList.length
        · simp [hlen, ih]
        · simp [hlen, ih]

/-- C3: if the batch-discovery context expires at iteration `k`, the
batch loop stops there and returns exactly what a run over only the first
`k` feeds accumulates — a partial result, not an error — and no feed past
the expiry point is processed (the feeds processed are precisely the
first `k`). -/
theorem discoverFromMultipleFeeds_ctx_expiry (k : Nat)
    (discoverResult : Feed → Except String (List DiscoveredBlog))
    (subscribedURLs : String → Bool) (feeds : List Feed) :
    discoverFromMultipleFeeds (ctxFrom k) discoverResult subscribedURLs feeds =
      discoverFromMultipleFeeds ctxNever discoverResult subscribedURLs (feeds.take k) ∧
    (discoverFromMultipleFeeds (ctxFrom k) discoverResult subscribedURLs feeds).processed =
      feeds.take k := by
  have h1 : discoverFromMultipleFeeds (ctxFrom k) discoverResult subscribedURLs feeds =
      discoverFromMultipleFeeds ctxNever discoverResult subscribedURLs (feeds.take k) := by
    unfold discoverFromMultipleFeeds
    simpa using discoverLoop_ctxFrom k discoverResult subscribedURLs feeds 0 ⟨[], [], []⟩
  refine ⟨h1, ?_⟩
  rw [h1]
  unfold discoverFromMultipleFeeds
  simpa using
    discoverLoop_processed_never discoverResult subscribedURLs (feeds.take k) 0 ⟨[], [], []⟩

/-- C2 counterexample: a batch run over the single feed `feedA` whose
`DiscoverFromFeed` call errors, with a context that never expires.  The
feed is iterated over (`processed = [feedA]`) yet `MarkFeedDiscovered` is
never called (`marked = []`): the `continue` in the error branch skips the
marking step, refuting the claim that errored feeds are marked. -/
theorem discoverFromMultipleFeeds_error_skips_mark :
    (discoverFromMultipleFeeds ctxNever
        (fun _ => Except.error "homepage fetch timed out")
        (fun _ => false) [feedA]).processed = [feedA] ∧
    (discoverFromMultipleFeeds ctxNever
        (fun _ => Except.error "homepage fetch timed out")
        (fun _ => false) [feedA]).marked = [] := by
  constructor <;> rfl

/-- C2 (amended): after a batch run not cut short by context expiry, the
feeds marked discovery-completed are exactly those whose individual
`DiscoverFromFeed` call returned without error — marked regardless of
whether any new candidates survived filtering, while feeds whose call
errored are skipped and left unmarked. -/
theorem discoverFromMultipleFeeds_marks_ok_feeds
    (discoverResult : Feed → Except String (List DiscoveredBlog))
    (subscribedURLs : String → Bool) (feeds : List Feed) :
    (discoverFromMultipleFeeds ctxNever discoverResult subscribedURLs feeds).marked =
      (feeds.filter fun f => exceptOk (discoverResult f)).map Feed.ID := by
  have aux : ∀ (fs : List Feed) (i : Nat) (st : BatchState),
      (discoverLoop ctxNever discoverResult subscribedURLs fs i st).marked =
        st.marked ++ (fs.filter fun f => exceptOk (discoverResult f)).map Feed.ID := by
    intro fs
    induction fs with
    | nil => intro i st; simp [discoverLoop]
    | cons f rest ih =>
      intro i st
      rw [discoverLoop]
      simp only [ctxNever, if_false]
      cases hres : discoverResult f with
      | error e => simp [hres, ih, exceptOk]
      | ok discovered =>
        simp only [hres]
        by_cases hlen :
            0 < (filterSubscribedFeeds discovered subscribedURLs).toList.length
        · simp [hlen, ih, exceptOk, hres]
        · simp [hlen, ih, exceptOk, hres]
  unfold discoverFromMultipleFeeds
  simpa using aux feeds 0 ⟨[], [], []⟩

/-- C4: the sanitizer's output never contains a link element whose href
has scheme file, javascript, data or ftp; it is a subsequence of the
input in which every kept chunk — ordinary text and safe-scheme links —
occurs exactly as often as in the input (so those bytes are preserved
unchanged and in order); http/https hrefs are never classified unsafe,
hence never altered; and empty input yields empty output. -/
theorem sanitizeFeedXML_scheme_filtering (doc : List FeedChunk) :
    (∀ href, hasUnsafeScheme href = true →
        FeedChunk.linkElem href ∉ sanitizeFeedXML doc) ∧
    List.Sublist (sanitizeFeedXML doc) doc ∧
    (∀ c, keepChunk c = true → (sanitizeFeedXML doc).count c = doc.count c) ∧
    (∀ href, feedScheme href = "http".toList ∨ feedScheme href = "https".toList →
        hasUnsafeScheme href = false) ∧
    sanitizeFeedXML [] = [] := by
  refine ⟨?_, List.filter_sublist _, ?_, ?_, rfl⟩
  · intro href h hmem
    rw [sanitizeFeedXML, List.mem_filter] at hmem
    rw [keepChunk] at hmem
    rw [h] at hmem
    simp at hmem
  · intro c hc
    induction doc with
    | nil => rfl
    | cons d rest ih =>
      simp only [sanitizeFeedXML] at ih ⊢
      by_cases hd : keepChunk d = true
      · by_cases hdc : d = c
        · subst hdc
          simp [List.filter, hd, List.count_cons, ih]
        · simp [List.filter, hd, List.count_cons, hdc, ih]
      · have hdc : ¬d = c := by
          intro he; rw [he, hc] at hd; exact hd rfl
        rw [Bool.not_eq_true] at hd
        simp [List.filter, hd, List.count_cons, hdc, ih]
  · intro href h
    rcases h with h | h <;>
      · rw [hasUnsafeScheme, h]
        decide

/-- Witness for C4: a concrete document mixing an unsafe `file://` link,
a safe `https://` link and ordinary text. -/
theorem sanitizeFeedXML_scheme_filtering_witness :
    hasUnsafeScheme "file://D:/feed1.xml" = true ∧
    FeedChunk.linkElem "file://D:/feed1.xml" ∉
      sanitizeFeedXML
        [FeedChunk.text "<rss><channel><title>Test Feed</title>",
         FeedChunk.linkElem "file://D:/feed1.xml",
         FeedChunk.linkElem "https://example.com/feed.xml",
         FeedChunk.text "</channel></rss>"] ∧
    (sanitizeFeedXML
        [FeedChunk.text "<rss><channel><title>Test Feed</title>",
         FeedChunk.linkElem "file://D:/feed1.xml",
         FeedChunk.linkElem "https://example.com/feed.xml",
         FeedChunk.text "</channel></rss>"]).count
      (FeedChunk.linkElem "https://example.com/feed.xml") =
      [FeedChunk.text "<rss><channel><title>Test Feed</title>",
       FeedChunk.linkElem "file://D:/feed1.xml",
       FeedChunk.linkElem "https://example.com/feed.xml",
       FeedChunk.text "</channel></rss>"].count
        (FeedChunk.linkElem "https://example.com/feed.xml") :=
  ⟨by decide,
   (sanitizeFeedXML_scheme_filtering _).1 "file://D:/feed1.xml" (by decide),
   (sanitizeFeedXML_scheme_filtering _).2.2.1
     (FeedChunk.linkElem "https://example.com/feed.xml") (by decide)⟩

/-- C5: sanitization is idempotent — applying the sanitizer to its own
output changes nothing. -/
theorem sanitizeFeedXML_idempotent (doc : List FeedChunk) :
    sanitizeFeedXML (sanitizeFeedXML doc) = sanitizeFeedXML doc := by
  simp only [sanitizeFeedXML]
  induction doc with
  | nil => rfl
  | cons d rest ih =>
    by_cases hd : keepChunk d = true
    · simp [List.filter, hd, ih]
    · rw [Bool.not_eq_true] at hd
      simp [List.filter, hd, ih]

/-- C6: at most one sweep is active at a time.  A `FetchAll` entry while
a sweep is running is a no-op — state unchanged, result `noop`, no error;
and of two serialized concurrent `FetchAll` calls the first starts the
single active sweep while the second returns immediately as a no-op. -/
theorem fetchAll_overlap_guard (feeds1 feeds2 : List Feed) (s : OrchState) :
    (s.progress.running = true → fetchAllStart feeds1 s = (s, FetchAllResult.noop)) ∧
    (s.progress.running = false →
      (fetchAllStart feeds1 s).2 = FetchAllResult.started ∧
      (fetchAllStart feeds1 s).1.progress.running = true ∧
      fetchAllStart feeds2 (fetchAllStart feeds1 s).1 =
        ((fetchAllStart feeds1 s).1, FetchAllResult.noop)) := by
  constructor
  · intro h
    simp [fetchAllStart, h]
  · intro h
    simp [fetchAllStart, h, initProgress]

/-- Witness for C6: from an idle state, the first call starts a sweep and
an immediately following call is a no-op; from a running state, a call is
a no-op. -/
theorem fetchAll_overlap_guard_witness :
    fetchAllStart [feedA] ⟨initProgress 3⟩ = (⟨initProgress 3⟩, FetchAllResult.noop) ∧
    fetchAllStart [feedA]
        (fetchAllStart [feedA] ⟨{ initProgress 3 with running := false }⟩).1 =
      ((fetchAllStart [feedA] ⟨{ initProgress 3 with running := false }⟩).1,
        FetchAllResult.noop) :=
  ⟨(fetchAll_overlap_guard [feedA] [feedA] ⟨initProgress 3⟩).1 rfl,
   ((fetchAll_overlap_guard [feedA] [feedA]
      ⟨{ initProgress 3 with running := false }⟩).2 rfl).2.2⟩

/-- `completed` after a partial sweep is the starting count plus the
number of worker completions observed. -/
theorem sweep_completed_eq (trace : List SweepEvent) :
    ∀ p : FetchProgress,
      (trace.foldl stepProgress p).completed = p.completed + countDone trace := by
  induction trace with
  | nil => intro p; simp [countDone]
  | cons e rest ih =>
    intro p
    cases e with
    | workerDone ok err => simp [List.foldl, stepProgress, countDone, ih, List.countP_cons]; omega
    | cancel => simp [List.foldl, stepProgress, countDone, ih, List.countP_cons]

/-- Once the tracker's running flag is false it never flips back to true
during the sweep. -/
theorem sweep_running_stays_false (trace : List SweepEvent) :
    ∀ p : FetchProgress, p.running = false →
      (trace.foldl stepProgress p).running = false := by
  induction trace with
  | nil => intro p h; simpa using h
  | cons e rest ih =>
    intro p h
    cases e with
    | workerDone ok err =>
      refine ih _ ?_
      simp [stepProgress]
      intro
      exact h
    | cancel => exact ih _ rfl

/-- The running flag after a partial sweep from a still-running state is
false exactly when the completions so far finished the sweep or a
cancellation was observed. -/
theorem sweep_running_iff (trace : List SweepEvent) :
    ∀ p : FetchProgress, p.running = true →
      p.completed + countDone trace ≤ p.total → p.completed < p.total →
      ((trace.foldl stepProgress p).running = false ↔
        p.completed + countDone trace = p.total ∨ SweepEvent.cancel ∈ trace) := by
  induction trace with
  | nil =>
    intro p hr _ hlt
    simp [hr, countDone]
    omega
  | cons e rest ih =>
    intro p hr hle hlt
    cases e with
    | workerDone ok err =>
      have hcd : countDone (SweepEvent.workerDone ok err :: rest) = countDone rest + 1 := by
        simp [countDone, List.countP_cons]
      rw [hcd] at hle ⊢
      rw [List.foldl_cons]
      by_cases hfin : p.total ≤ p.completed + 1
      · have hrest : countDone rest = 0 := by omega
        have hfalse : (List.foldl stepProgress
            (stepProgress p (SweepEvent.workerDone ok err)) rest).running = false := by
          refine sweep_running_stays_false rest _ ?_
          simp [stepProgress, hfin]
        rw [hfalse]
        constructor
        · intro _
          left
          omega
        · intro _
          rfl
      · have hstep_run : (stepProgress p (SweepEvent.workerDone ok err)).running = true := by
          simp [stepProgress, hfin, hr]
        have hstep_completed :
            (stepProgress p (SweepEvent.workerDone ok err)).completed = p.completed + 1 := by
          simp [stepProgress]
        have hstep_total :
            (stepProgress p (SweepEvent.workerDone ok err)).total = p.total := by
          simp [stepProgress]
        have h2 := ih (stepProgress p (SweepEvent.workerDone ok err)) hstep_run
          (by rw [hstep_completed, hstep_total]; omega)
          (by rw [hstep_completed, hstep_total]; omega)
        rw [hstep_completed, hstep_total] at h2
        rw [h2]
        constructor
        · rintro (h | h)
          · left; omega
          · right
            exact List.mem_cons_of_mem _ h
        · rintro (h | h)
          · left; omega
          · rw [List.mem_cons] at h
            rcases h with h | h
            · exact absurd h (by simp)
            · right; exact h
    | cancel =>
      have hfalse : (List.foldl stepProgress (stepProgress p SweepEvent.cancel) rest).running
          = false :=
        sweep_running_stays_false rest _ rfl
      rw [List.foldl_cons, hfalse]
      simp

/-- C7: within a sweep the tracker starts at `{completed := 0, running :=
true}`, each worker completion (success or failure alike) increments
`completed` by exactly one, `completed` is monotonically non-decreasing
along the sweep's event trace, and `running` flips back to false exactly
when `completed` reaches `total` or the sweep is aborted by
cancellation. -/
theorem progressTracker_lifecycle (total : Nat) (trace : List SweepEvent)
    (h1 : countDone trace ≤ total) (h2 : 0 < total) :
    (runSweep total []).completed = 0 ∧
    (runSweep total []).running = true ∧
    (∀ (p : FetchProgress) (ok : Bool) (err : String),
        (stepProgress p (SweepEvent.workerDone ok err)).completed = p.completed + 1) ∧
    (runSweep total trace).completed = countDone trace ∧
    (∀ pre ext, trace = pre ++ ext →
        (runSweep total pre).completed ≤ (runSweep total trace).completed) ∧
    ((runSweep total trace).running = false ↔
      countDone trace = total ∨ SweepEvent.cancel ∈ trace) := by
  have hcompleted : ∀ tr : List SweepEvent, (runSweep total tr).completed = countDone tr := by
    intro tr
    rw [runSweep, sweep_completed_eq]
    simp [initProgress]
  refine ⟨rfl, rfl, ?_, hcompleted trace, ?_, ?_⟩
  · intro p ok err
    simp [stepProgress]
  · intro pre ext hsplit
    rw [hcompleted, hcompleted, hsplit]
    simp [countDone, List.countP_append]
  · have := sweep_running_iff trace (initProgress total) rfl
      (by simpa [initProgress] using h1) (by simpa [initProgress] using h2)
    simpa [initProgress, runSweep] using this

/-- Witness for C7 at a sweep of two feeds whose trace completes one feed
and is then cancelled. -/
theorem progressTracker_lifecycle_witness :
    countDone [SweepEvent.workerDone true "", SweepEvent.cancel] ≤ 2 ∧
    (runSweep 2 [SweepEvent.workerDone true "", SweepEvent.cancel]).completed =
      countDone [SweepEvent.workerDone true "", SweepEvent.cancel] ∧
    ((runSweep 2 [SweepEvent.workerDone true "", SweepEvent.cancel]).running = false ↔
      countDone [SweepEvent.workerDone true "", SweepEvent.cancel] = 2 ∨
        SweepEvent.cancel ∈ [SweepEvent.workerDone true "", SweepEvent.cancel]) :=
  ⟨by decide,
   (progressTracker_lifecycle 2 [SweepEvent.workerDone true "", SweepEvent.cancel]
      (by decide) (by decide)).2.2.2.1,
   (progressTracker_lifecycle 2 [SweepEvent.workerDone true "", SweepEvent.cancel]
      (by decide) (by decide)).2.2.2.2.2⟩

/-- C8: when the upsert key `(feedID, URL)` matches an existing row, that
row survives with its read/favorite/hidden flags unchanged and only
title, content and publish time refreshed; rows with other keys pass
through untouched; and when no row matches, the table is extended by
exactly one fresh row with the new key, inserted unread (and not
favorite, not hidden). -/
theorem upsertArticle_preserves_state (fid : Int) (it : FeedItem)
    (table : List Article) :
    (∀ a ∈ table, keyMatch fid it.ItemURL a = true →
        refreshArticle it a ∈ upsertArticle fid it table ∧
        (refreshArticle it a).Read = a.Read ∧
        (refreshArticle it a).Favorite = a.Favorite ∧
        (refreshArticle it a).Hidden = a.Hidden ∧
        (refreshArticle it a).FeedID = a.FeedID ∧
        (refreshArticle it a).ArticleURL = a.ArticleURL) ∧
    (∀ a ∈ table, keyMatch fid it.ItemURL a = false →
        a ∈ upsertArticle fid it table) ∧
    (table.any (keyMatch fid it.ItemURL) = false →
        upsertArticle fid it table = table ++ [freshArticle fid it] ∧
        (freshArticle fid it).FeedID = fid ∧
        (freshArticle fid it).ArticleURL = it.ItemURL ∧
        (freshArticle fid it).Read = false ∧
        (freshArticle fid it).Favorite = false ∧
        (freshArticle fid it).Hidden = false) := by
  refine ⟨?_, ?_, ?_⟩
  · intro a ha hk
    have hany : table.any (keyMatch fid it.ItemURL) = true :=
      List.any_eq_true.mpr ⟨a, ha, hk⟩
    refine ⟨?_, rfl, rfl, rfl, rfl, rfl⟩
    rw [upsertArticle, if_pos hany]
    exact List.mem_map.mpr ⟨a, ha, by simp [hk]⟩
  · intro a ha hk
    rw [upsertArticle]
    by_cases hany : table.any (keyMatch fid it.ItemURL) = true
    · rw [if_pos hany]
      exact List.mem_map.mpr ⟨a, ha, by simp [hk]⟩
    · rw [if_neg hany]
      exact List.mem_append_left _ ha
  · intro hany
    refine ⟨?_, rfl, rfl, rfl, rfl, rfl⟩
    rw [upsertArticle, if_neg (by rw [hany]; exact Bool.false_ne_true)]

/-- Witness for C8: re-fetching an item whose URL already exists for the
feed keeps the stored row's read/favorite/hidden flags while refreshing
its content. -/
theorem upsertArticle_preserves_state_witness :
    keyMatch 7 "http://a/post"
        ⟨7, "http://a/post", "old title", "old body", 100, true, true, false⟩ = true ∧
    refreshArticle ⟨"http://a/post", "new title", "new body", 200⟩
        ⟨7, "http://a/post", "old title", "old body", 100, true, true, false⟩ ∈
      upsertArticle 7 ⟨"http://a/post", "new title", "new body", 200⟩
        [⟨7, "http://a/post", "old title", "old body", 100, true, true, false⟩] ∧
    (refreshArticle ⟨"http://a/post", "new title", "new body", 200⟩
        ⟨7, "http://a/post", "old title", "old body", 100, true, true, false⟩).Read = true :=
  ⟨by decide,
   ((upsertArticle_preserves_state 7 ⟨"http://a/post", "new title", "new body", 200⟩
        [⟨7, "http://a/post", "old title", "old body", 100, true, true, false⟩]).1
      ⟨7, "http://a/post", "old title", "old body", 100, true, true, false⟩
      (List.mem_singleton.mpr rfl) (by decide)).1,
   by decide⟩

/-- If cancellation is observed at poll step `k`, a wait loop started at
any step `i ≤ k` with enough fuel returns at some step no later than
`k`. -/
theorem waitLoop_cancelled_le (total : Nat) (completed : Nat → Nat)
    (cancelled : Nat → Bool) (k : Nat) (hk : cancelled k = true) :
    ∀ (fuel i : Nat), i ≤ k → k < i + fuel →
      ∃ j, waitLoop total completed cancelled fuel i = some j ∧ j ≤ k := by
  intro fuel
  induction fuel with
  | zero =>
    intro i hik hlt
    omega
  | succ n ih =>
    intro i hik hlt
    by_cases hguard : (cancelled i || decide (total ≤ completed i)) = true
    · refine ⟨i, ?_, hik⟩
      rw [waitLoop, if_pos hguard]
    · have hguard0 : (cancelled i || decide (total ≤ completed i)) = false :=
        Bool.eq_false_iff.mpr hguard
      have hci : cancelled i = false := (Bool.or_eq_false_iff.mp hguard0).1
      have hne : i ≠ k := by
        intro he
        rw [he, hk] at hci
        cases hci
      have hik2 : i + 1 ≤ k := by omega
      obtain ⟨j, hj, hjk⟩ := ih (i + 1) hik2 (by omega)
      refine ⟨j, ?_, hjk⟩
      rw [waitLoop, if_neg hguard]
      exact hj

/-- C9: if the context is cancelled while workers are still in flight,
the orchestrator's wait loop stops waiting no later than the poll at
which cancellation is observed — it returns regardless of how far
`completed` is from `total`, instead of blocking until slow in-flight
fetches finish. -/
theorem fetchAll_cancellation_prompt (total : Nat) (completed : Nat → Nat)
    (cancelled : Nat → Bool) (k fuel : Nat)
    (hk : cancelled k = true) (hfuel : k < fuel) :
    ∃ j, fetchAllWaitReturn total completed cancelled fuel = some j ∧ j ≤ k := by
  rw [fetchAllWaitReturn]
  exact waitLoop_cancelled_le total completed cancelled k hk fuel 0 (Nat.zero_le k)
    (by omega)

/-- Witness for C9: with five feeds of which none ever completes and a
context cancelled at poll step 3, the wait loop returns by step 3. -/
theorem fetchAll_cancellation_prompt_witness :
    ∃ j, fetchAllWaitReturn 5 (fun _ => 0) (fun i => decide (3 ≤ i)) 10 = some j ∧
      j ≤ 3 :=
  fetchAll_cancellation_prompt 5 (fun _ => 0) (fun i => decide (3 ≤ i)) 3 10
    (by decide) (by decide)

end MrRSS
